import Mathlib

/-!
Shallow embedding of the core of `license-fetcher` (dependency resolution and
license aggregation), translated from the Rust sources under `src/`:

* `src/lib.rs` — `Package`, `PackageList`, `PackageList::from_encoded`
* `src/error.rs` — `UnpackError`
* `src/build/mod.rs` — `package_list_with_licenses`, `PackageList::encode`
* `src/build/metadata/mod.rs` — `walk_dependencies`,
  `extract_package_name_from_id`, `package_list_from_cargo_metadata`,
  `used_pkg_names_from_cargo_tree`, `package_list`
* `src/build/metadata/metadata.rs` — the `cargo metadata` record types
* `src/build/metadata/command.rs` — `exec_cargo`
* `src/build/fetch/mod.rs` — `license_text_from_folder`,
  `populate_package_list_licenses`
* `src/build/cache/mod.rs` — `populate_with_cache`
* `src/build/error.rs` — `ReportList` (used as `ReportJoin` in `fetch/mod.rs`)

External-process invocation, JSON/utf-8 parsing, the filesystem and the
bincode/deflate codec are boundaries: their *outcomes* are inputs to the
embedded functions (results of `exec_cargo`, directory listings, codec
functions), exactly as the spec carves out the external interfaces.
Machine mutation (`&mut Vec<Package>`, `FnvHashSet`) is modelled by explicit
state passing (`List Package`, `Finset String`).  The unboundedly recursive
`walk_dependencies` is modelled with a fuel parameter: `none` means the
recursion exceeded the given depth budget, and termination of the Rust
function corresponds to `∃ fuel, walk_dependencies fuel … ≠ none`.
-/

deriving instance DecidableEq for Except

namespace LicenseFetcher

/-- Rust `Package` from `src/lib.rs` (bincode-encodable metadata record). -/
structure Package where
  name : String
  version : String
  authors : List String
  description : Option String
  homepage : Option String
  repository : Option String
  license_identifier : Option String
  license_text : Option String
  restored_from_cache : Bool
  is_root_pkg : Bool
  name_version : String
deriving DecidableEq, Repr

/-- Rust `PackageList` from `src/lib.rs`: a `Vec<Package>` newtype (Deref to Vec). -/
abbrev PackageList := List Package

/-- Rust `MetadataResolveNodeDepsKind` from `src/build/metadata/metadata.rs`:
`kind` is `None` for a normal/production dependency edge. -/
structure MetadataResolveNodeDepsKind where
  kind : Option String
deriving DecidableEq, Repr

/-- Rust `MetadataResolveNodeDeps` from `src/build/metadata/metadata.rs`. -/
structure MetadataResolveNodeDeps where
  pkg : String
  dep_kinds : List MetadataResolveNodeDepsKind
deriving DecidableEq, Repr

/-- Rust `MetadataResolveNode` from `src/build/metadata/metadata.rs`. -/
structure MetadataResolveNode where
  id : String
  deps : List MetadataResolveNodeDeps
deriving DecidableEq, Repr

/-- Rust `MetadataResolve` from `src/build/metadata/metadata.rs`. -/
structure MetadataResolve where
  nodes : List MetadataResolveNode
  root : Option String
deriving DecidableEq, Repr

/-- Rust `MetadataPackage` from `src/build/metadata/metadata.rs`. -/
structure MetadataPackage where
  name : String
  version : String
  id : String
  license : Option String
  description : Option String
  authors : List String
  repository : Option String
  homepage : Option String
deriving DecidableEq, Repr

/-- Rust `Metadata` from `src/build/metadata/metadata.rs`. -/
structure Metadata where
  packages : List MetadataPackage
  resolve : MetadataResolve
deriving DecidableEq, Repr

/-- Rust `dep.dep_kinds.iter().map(|d| &d.kind).any(|o| o.is_none())` from
`walk_dependencies` (`src/build/metadata/mod.rs` line 51). -/
def depIsNormal (dep : MetadataResolveNodeDeps) : Bool :=
  dep.dep_kinds.any (fun d => d.kind.isNone)

/-- The `dependencies_hash_map` lookup of `package_list_from_cargo_metadata`:
`FnvHashMap::from_iter(dependencies.iter().map(|d| (&d.id, d)))` followed by
`.get(root)`.  `from_iter` lets a later duplicate id overwrite an earlier
one, hence the lookup searches the reversed node list. -/
def nodesGet (nodes : List MetadataResolveNode) (root : String) :
    Option MetadataResolveNode :=
  nodes.reverse.find? (fun n => n.id == root)

/-- Rust `FnvHashSet::insert`: add the identity unless already present
(membership is all downstream code observes, so a duplicate-free list is a
faithful hash-set model). -/
def hashSetInsert (x : String) (s : List String) : List String :=
  if s.contains x then s else x :: s

/-- The `for dep in package.deps.iter()` loop of `walk_dependencies`: visit
every dependency edge that has a normal (`None`) kind through `step` (the
recursive call at the remaining budget), threading the visited set; a `none`
from an earlier visit (budget exhausted) is propagated. -/
def walkDepsFold (step : String → List String → Option (List String))
    (deps : List MetadataResolveNodeDeps) (acc : Option (List String)) :
    Option (List String) :=
  deps.foldl (fun a dep =>
    match a with
    | none => none
    | some used =>
      if depIsNormal dep then step dep.pkg used else some used) acc

/-- Rust `walk_dependencies` from `src/build/metadata/mod.rs` lines 40–55, with an
explicit recursion-depth budget `fuel` (the Rust function recurses without
any bound or visited-check).  `none` means the budget was exhausted; the Rust
run terminates iff some finite budget suffices. -/
def walk_dependencies (nodes : List MetadataResolveNode) :
    Nat → String → List String → Option (List String)
  | 0, _, _ => none
  | fuel + 1, root, used =>
    match nodesGet nodes root with
    | none => some used
    | some package =>
      walkDepsFold (fun pkg u => walk_dependencies nodes fuel pkg u)
        package.deps (some (hashSetInsert package.id used))

/-- Character class `[a-z\-\_]` of `PARSE_REGEX` in
`extract_package_name_from_id` (`src/build/metadata/mod.rs` line 61). -/
def isPkgNameChar (c : Char) : Bool :=
  ('a' ≤ c && c ≤ 'z') || c = '-' || c = '_'

/-- Character class `[\d\.]` of `PARSE_REGEX`. -/
def isPkgVersionChar (c : Char) : Bool :=
  c.isDigit || c = '.'

/-- Leftmost match of the pattern `.*?[#|\/](?<name>[a-z\-\_]+)[@|#][\d\.]+`
over the id string, returning the `name` capture.  Because the name class
`[a-z\-\_]` is disjoint from the delimiter class `[@|#]`, the backtracking
regex engine deterministically takes the maximal name run at the first
delimiter position where the whole tail pattern matches, which is what this
scan computes (the lazy `.*?` prefix plus unanchored search make the match
start irrelevant beyond leftmost-ness). -/
def regexScan : List Char → Option String
  | [] => none
  | c :: rest =>
    let here : Option String :=
      if c = '#' || c = '|' || c = '/' then
        match rest.takeWhile isPkgNameChar, rest.dropWhile isPkgNameChar with
        | nm :: nms, d :: v :: _ =>
          if (d = '@' || d = '|' || d = '#') && isPkgVersionChar v then
            some (String.mk (nm :: nms))
          else none
        | _, _ => none
      else none
    match here with
    | some s => some s
    | none => regexScan rest

/-- Rust `extract_package_name_from_id` from `src/build/metadata/mod.rs` lines
57–71: capture the package name out of a package-id string, `none` on a
failed match (the Rust function reports `PackageNameParseError`). -/
def extract_package_name_from_id (package_id : String) : Option String :=
  regexScan package_id.toList

/-- Rust `PkgListFromCargoMetadataError` from `src/build/metadata/mod.rs`. -/
inductive PkgListFromCargoMetadataError
  | ExecCargo
  | ParseJson
  | ParseString
  | Thread
  | PackageNameParseError
  | RootPackageMissing
deriving DecidableEq, Repr

/-- An `error_stack::Report` modelled as its non-empty list of contexts;
`Report::extend_one` appends. -/
abbrev MetadataReport := List PkgListFromCargoMetadataError

/-- The pure tail of `package_list_from_cargo_metadata`
(`src/build/metadata/mod.rs` lines 73–121) after the external `cargo
metadata` invocation and JSON parse produced `metadata_parsed`: resolve the
root id, walk the dependency graph, extract the root package name, and keep
exactly the packages the walk visited.  `fuel` bounds the walk recursion
depth; `none` means the walk exceeded it (the Rust walk is unbounded). -/
def package_list_from_cargo_metadata (fuel : Nat) (metadata_parsed : Metadata) :
    Option (Except MetadataReport (List Package)) :=
  match metadata_parsed.resolve.root with
  | none => some (.error [.ParseJson])
  | some package_id =>
    match walk_dependencies metadata_parsed.resolve.nodes fuel package_id [] with
    | none => none
    | some used_packages =>
      match extract_package_name_from_id package_id with
      | none => some (.error [.PackageNameParseError])
      | some root_package_name =>
        some (.ok (((metadata_parsed.packages.filter
          (fun e => used_packages.contains e.id)).map (fun package =>
            { license_text := none
              authors := package.authors
              license_identifier := package.license
              name := package.name
              version := package.version
              description := package.description
              homepage := package.homepage
              repository := package.repository
              restored_from_cache := false
              is_root_pkg := package.name == root_package_name
              name_version := package.name ++ "-" ++ package.version
              : Package }))))

/-- Rust `str::trim`: drop whitespace from both ends. -/
def trimChars (l : List Char) : List Char :=
  ((l.dropWhile Char.isWhitespace).reverse.dropWhile Char.isWhitespace).reverse

/-- The pure tail of `used_pkg_names_from_cargo_tree`
(`src/build/metadata/mod.rs` lines 123–150) after the external `cargo tree`
invocation and utf-8 decode produced the stdout text, given here already
split into lines: trim each line, drop empties, keep the first
space-delimited token (`e.split(" ").next()` is the prefix before the first
space, so `takeWhile`).  The Rust collects into a hash set used only through
`contains`, so a list with `List.contains` is an equivalent model. -/
def used_pkg_names_from_cargo_tree (stdout_lines : List String) : List String :=
  (((stdout_lines.map (fun l => trimChars l.toList)).filter
    (fun s => !s.isEmpty)).map
    (fun e => String.mk (e.takeWhile (fun c => c != ' '))))

/-- Rust `package_list` from `src/build/metadata/mod.rs` lines 161–196.  The two
thread closures are the two boundary fetches: `metadataFetch` is the outcome
of `exec_cargo` + JSON parse feeding `package_list_from_cargo_metadata`, and
`treeFetch` the outcome of `exec_cargo` + utf-8 decode feeding
`used_pkg_names_from_cargo_tree`.  If both fail the two reports are combined
with `extend_one`; otherwise each `?` propagates the single failure; on
success the metadata packages are filtered by the tree name set and the run
fails with `RootPackageMissing` unless some surviving package is the root. -/
def package_list (fuel : Nat)
    (metadataFetch : Except MetadataReport Metadata)
    (treeFetch : Except MetadataReport (List String)) :
    Option (Except MetadataReport PackageList) :=
  let packagesResult : Option (Except MetadataReport (List Package)) :=
    match metadataFetch with
    | .error e => some (.error e)
    | .ok m => package_list_from_cargo_metadata fuel m
  match packagesResult with
  | none => none
  | some packages =>
    let used_packages : Except MetadataReport (List String) :=
      match treeFetch with
      | .error e => .error e
      | .ok stdout_lines => .ok (used_pkg_names_from_cargo_tree stdout_lines)
    match packages, used_packages with
    | .error pkgs_err, .error used_pkgs_err =>
      some (.error (pkgs_err ++ used_pkgs_err))
    | .error e, _ => some (.error e)
    | _, .error e => some (.error e)
    | .ok pkgs, .ok used_package_names =>
      let filtered_packages :=
        pkgs.filter (fun e => used_package_names.contains e.name)
      if filtered_packages.any (fun e => e.is_root_pkg) then
        some (.ok filtered_packages)
      else
        some (.error [.RootPackageMissing])

/-- One normal-kind dependency edge of the resolve graph: `x` has a node in
the list and that node carries a dependency on `y` with a `None` kind. -/
def WalkRel (nodes : List MetadataResolveNode) (y x : String) : Prop :=
  ∃ node dep, nodesGet nodes x = some node ∧ dep ∈ node.deps ∧
    depIsNormal dep = true ∧ dep.pkg = y

/-- Reachability along normal-kind edges, every node on the path being
present in the node list (the graph-theoretic reachable set of the resolve
graph restricted to normal edges). -/
inductive Reach (nodes : List MetadataResolveNode) : String → String → Prop
  | refl (root : String) (node : MetadataResolveNode)
      (h : nodesGet nodes root = some node) : Reach nodes root root
  | step (root : String) (node : MetadataResolveNode)
      (dep : MetadataResolveNodeDeps) (x : String)
      (h : nodesGet nodes root = some node) (hmem : dep ∈ node.deps)
      (hkind : depIsNormal dep = true) (hx : Reach nodes dep.pkg x) :
      Reach nodes root x

/-- The resolve graph is acyclic on its normal-kind edges: every identity is
accessible under the edge relation (no infinite normal-edge path, which for
these finite graphs is exactly acyclicity). -/
def AcyclicNormal (nodes : List MetadataResolveNode) : Prop :=
  ∀ x, Acc (WalkRel nodes) x

/-- Rust `CargoDirective` from `src/build/config.rs`. -/
inductive CargoDirective
  | Default
  | Locked
  | Frozen
deriving DecidableEq, Repr

/-- Rust `ExecCargoError` from `src/build/metadata/command.rs`. -/
inductive ExecCargoError
  | FailedExecution
  | FailedToExecute
deriving DecidableEq, Repr

/-- An `error_stack::Report<ExecCargoError>` as its non-empty context list. -/
abbrev ExecReport := List ExecCargoError

/-- Rust `std::process::Output` as consumed downstream (only stdout is read). -/
structure Output where
  stdout : String
deriving DecidableEq, Repr

/-- The `for directive in config.cargo_directives.iter()` loop of
`exec_cargo` (`src/build/metadata/command.rs` lines 72–91), with the
process-invocation boundary `run` standing for `exec_cargo_single` and the
accumulated error report threaded explicitly (`None` before the first
failure; `extend_one` appends). -/
def exec_cargo_loop (run : CargoDirective → Except ExecReport Output) :
    List CargoDirective → Option ExecReport → Except ExecReport Output
  | [], none => .error [ExecCargoError.FailedExecution]
  | [], some err => .error err
  | directive :: rest, err =>
    match run directive with
    | .ok output => .ok output
    | .error e =>
      exec_cargo_loop run rest
        (match err with
         | none => some e
         | some r => some (r ++ e))

/-- Rust `exec_cargo` from `src/build/metadata/command.rs` lines 65–92: try each
directive in order, return the first successful output, otherwise the
combined report of every failure (`err.unwrap_or_else(FailedExecution)`
covers the empty directive list). -/
def exec_cargo (run : CargoDirective → Except ExecReport Output)
    (cargo_directives : List CargoDirective) : Except ExecReport Output :=
  exec_cargo_loop run cargo_directives none

/-- A directory entry as seen by `license_text_from_folder`: a regular file
whose `read_to_string` either yields text (`some`) or fails (`none`, the
entry is skipped), or a subdirectory whose `read_dir` either lists entries
(`some`) or fails (`none`, the entry is skipped with a log). -/
inductive FsEntry
  | file (name : String) (content : Option String)
  | dir (name : String) (entries : Option (List FsEntry))

/-- Rust `file_name().to_string_lossy()` of an entry. -/
def FsEntry.name : FsEntry → String
  | .file n _ => n
  | .dir n _ => n

/-- Rust `file_type().map_or(false, |e| e.is_file())` of an entry. -/
def FsEntry.isFile : FsEntry → Bool
  | .file _ _ => true
  | .dir _ _ => false

/-- Substring containment over character lists. -/
def charsContain (pat : List Char) : List Char → Bool
  | [] => pat.isEmpty
  | c :: rest => pat.isPrefixOf (c :: rest) || charsContain pat rest

/-- ASCII lower-casing of one character (the five matched words are ASCII,
so the regex engine's case folding agrees with this on every relevant
comparison). -/
def charToLower (c : Char) : Char :=
  if 'A' ≤ c && c ≤ 'Z' then Char.ofNat (c.toNat + 32) else c

/-- Rust `LICENSE_FILE_NAME_REGEX` from `src/build/fetch/mod.rs` line 40: the
case-insensitive pattern `.*(license|copying|authors|notice|eula).*` holds
iff the lowercased name contains one of the five words as a substring. -/
def license_file_name_matches (name : String) : Bool :=
  ["license", "copying", "authors", "notice", "eula"].any
    (fun w => charsContain w.toList (name.toList.map charToLower))

/-- Rust `license_text_from_folder` from `src/build/fetch/mod.rs` lines 36–90.
`folder` is the `read_dir(&path)` outcome for the package folder (`none` =
unreadable, the one `?` in the function).  Entries matching the license
name pattern are expanded (a matching subdirectory contributes its own
matching entries, an unreadable subdirectory is skipped), non-files are
dropped, readable files are concatenated each followed by a blank line, and
an empty concatenation yields `Ok(None)`. -/
def license_text_from_folder (folder : Option (List FsEntry)) :
    Except Unit (Option String) :=
  match folder with
  | none => .error ()
  | some entries =>
    let matched := entries.filter (fun e => license_file_name_matches e.name)
    let expanded := (matched.map (fun e =>
      match e with
      | FsEntry.dir _ none => []
      | FsEntry.dir _ (some subs) =>
        subs.filter (fun s => license_file_name_matches s.name)
      | FsEntry.file _ _ => [e])).flatten
    let files := expanded.filter (fun e => e.isFile)
    let texts := files.filterMap (fun e =>
      match e with
      | FsEntry.file _ content => content
      | FsEntry.dir _ _ => none)
    let license_text := texts.foldl (fun a b => a ++ b ++ "\n\n") ""
    if license_text.isEmpty then .ok none else .ok (some license_text)

/-- Rust `LicenseFetchError` from `src/build/fetch/mod.rs`. -/
inductive LicenseFetchError
  | RegistrySrc
  | LicenseFetchForPackage
  | SrcFolderRecursion
deriving DecidableEq, Repr

/-- The filter deciding which packages enter `package_hash_map` in
`populate_package_list_licenses` (`src/build/fetch/mod.rs` line 104):
`p.license_text.is_none() && !p.restored_from_cache`. -/
def scanEligible (p : Package) : Bool :=
  p.license_text.isNone && !p.restored_from_cache

/-- Rust `package_hash_map` from `populate_package_list_licenses` lines 101–106:
`name_version ↦` the (index of the) eligible package, built once before any
scanning; `FnvHashMap::from_iter` lets a later duplicate key overwrite an
earlier one. -/
def package_hash_map (package_list : List Package) : List (String × Nat) :=
  ((package_list.enum).filter (fun p => scanEligible p.2)).map
    (fun p => (p.2.name_version, p.1))

/-- Hash-map lookup with `from_iter` last-wins semantics. -/
def hashMapGet (m : List (String × Nat)) (k : String) : Option Nat :=
  (m.reverse.find? (fun e => e.1 == k)).map (fun e => e.2)

/-- An entry of one registry `src` root folder: its directory name, its
`file_type().is_dir()` flag, and (for the license scan) the `read_dir`
outcome of the folder itself. -/
structure RootEntry where
  name : String
  isDir : Bool
  entries : Option (List FsEntry)

/-- Write `res` into `license_text` of the package at `idx`
(`(**p).license_text = res` through the map's `&mut` reference). -/
def setLicenseAt (pl : List Package) (idx : Nat) (res : Option String) :
    List Package :=
  match pl[idx]? with
  | some p => pl.set idx { p with license_text := res }
  | none => pl

/-- The `for_each` over one src folder's entries
(`src/build/fetch/mod.rs` lines 119–139): directories whose name is an
eligible `name_version` key get `license_text_from_folder` applied, a
success overwrites `license_text`, a failure is joined into the running
`ReportJoin` (modelled as the accumulated error list). -/
def scanSrcFolder (pairs : List (String × Nat)) (listing : List RootEntry)
    (acc : List Package × List LicenseFetchError) :
    List Package × List LicenseFetchError :=
  listing.foldl (fun acc e =>
    if e.isDir then
      match hashMapGet pairs e.name with
      | some idx =>
        match license_text_from_folder e.entries with
        | .ok res => (setLicenseAt acc.1 idx res, acc.2)
        | .error _ =>
          (acc.1, acc.2 ++ [LicenseFetchError.LicenseFetchForPackage])
      | none => acc
    else acc) acc

/-- The `while let Some(src_folder)` loop of
`populate_package_list_licenses`: each root's `read_dir` outcome is either
a listing (`some`) or a failure (`none`), and a failure aborts immediately
through `?` with `SrcFolderRecursion`. -/
def scanSrcRoots (pairs : List (String × Nat)) :
    List (Option (List RootEntry)) →
    (List Package × List LicenseFetchError) →
    Except LicenseFetchError (List Package × List LicenseFetchError)
  | [], acc => .ok acc
  | none :: _, _ => .error .SrcFolderRecursion
  | some listing :: rest, acc =>
    scanSrcRoots pairs rest (scanSrcFolder pairs listing acc)

/-- Rust `populate_package_list_licenses` from `src/build/fetch/mod.rs` lines
97–143.  `src_folders` is the `src_registry_folders(cargo_home_dir)`
outcome (`.error` = `RegistrySrc`), carrying per root the `read_dir`
outcome.  The final `result.result()` is the `ReportList::result` from
`src/build/error.rs` (used under the name `ReportJoin`): `Ok` iff no
per-package error was joined, otherwise the combined
`LicenseFetchForPackage` report. -/
def populate_package_list_licenses
    (src_folders : Except Unit (List (Option (List RootEntry))))
    (package_list : List Package) :
    Except LicenseFetchError (List Package) :=
  match src_folders with
  | .error _ => .error .RegistrySrc
  | .ok roots =>
    match scanSrcRoots (package_hash_map package_list) roots
        (package_list, []) with
    | .error e => .error e
    | .ok (pl, []) => .ok pl
    | .ok (_, _ :: _) => .error .LicenseFetchForPackage

/-- Rust `CacheError` from `src/build/cache/mod.rs`. -/
inductive CacheError
  | NotBuildScript
  | Invalid
  | ReadError
deriving DecidableEq, Repr

/-- Rust `cache_map` lookup of `populate_with_cache`
(`src/build/cache/mod.rs` line 48): `name_version ↦` cached package,
`from_iter` last-wins. -/
def cacheMapGet (cache : List Package) (k : String) : Option Package :=
  cache.reverse.find? (fun e => e.name_version == k)

/-- The population loop of `populate_with_cache`
(`src/build/cache/mod.rs` lines 48–54): every package whose `name_version`
is a cache key gets `restored_from_cache = true` and its `license_text`
overwritten by the cached entry's `license_text`. -/
def populate_with_cache (cache : List Package) (pkg_list : List Package) :
    List Package :=
  pkg_list.map (fun pkg =>
    match cacheMapGet cache pkg.name_version with
    | some c =>
      { pkg with restored_from_cache := true, license_text := c.license_text }
    | none => pkg)

/-- Rust `populate_with_cache` including its cache load
(`load_package_list_from_out_dir_during_build_script`, a filesystem
boundary whose outcome is `cacheLoad`). -/
def populate_with_cache_run (cacheLoad : Except CacheError (List Package))
    (pkg_list : List Package) : Except CacheError (List Package) :=
  match cacheLoad with
  | .error e => .error e
  | .ok cache => .ok (populate_with_cache cache pkg_list)

/-- Rust `UnpackError` from `src/error.rs` (payloads of the two wrapped
library errors dropped). -/
inductive UnpackError
  | DecompressError
  | DecodeError
  | Empty
deriving DecidableEq, Repr

/-- The serialize/compress — decompress/deserialize boundary (`bincode` and
`miniz_oxide`), opaque per the spec: `encode_to_vec`, `compress_to_vec`
(level 10), `decompress_to_vec`, `decode_from_slice`, over byte buffers
modelled as `List Nat`. -/
structure Codec where
  bincodeEncode : PackageList → Except Unit (List Nat)
  compress_to_vec : List Nat → List Nat
  decompress_to_vec : List Nat → Option (List Nat)
  bincodeDecode : List Nat → Option PackageList

/-- Rust `PackageList::encode` from `src/build/mod.rs` lines 265–280: serialize,
then compress. -/
def PackageList.encode (c : Codec) (pl : PackageList) :
    Except Unit (List Nat) :=
  match c.bincodeEncode pl with
  | .error e => .error e
  | .ok data => .ok (c.compress_to_vec data)

/-- Rust `PackageList::from_encoded` from `src/lib.rs` lines 315–326: an empty
buffer is rejected with `UnpackError::Empty` before any decoding; then
decompress (`?` wraps into `DecompressError`) and deserialize (`?` wraps
into `DecodeError`). -/
def PackageList.from_encoded (c : Codec) (bytes : List Nat) :
    Except UnpackError PackageList :=
  if bytes.isEmpty then .error .Empty
  else
    match c.decompress_to_vec bytes with
    | none => .error .DecompressError
    | some uncompressed_bytes =>
      match c.bincodeDecode uncompressed_bytes with
      | none => .error .DecodeError
      | some package_list => .ok package_list

/-- Rust `BuildError` from `src/build/mod.rs`. -/
inductive BuildError
  | FailedMetadataFetching
  | CacheReadError
  | FailedLicenseFetch
  | Unexpected
deriving DecidableEq, Repr

/-- Rust `impl Ord for Package` from `src/lib.rs` lines 220–236 as the induced
`≤`: compare `name`, then `version`. -/
def Package.cmpLe (a b : Package) : Bool :=
  if a.name < b.name then true
  else if b.name < a.name then false
  else if a.version < b.version then true
  else if b.version < a.version then false
  else true

/-- The `≤` of `impl Ord for Package` as a relation. -/
def Package.le (a b : Package) : Prop :=
  Package.cmpLe a b = true

instance : DecidableRel Package.le :=
  fun a b => instDecidableEqBool (Package.cmpLe a b) true

/-- Rust `Vec::swap(i, j)` on a list (both indices in bounds in every use). -/
def listSwap (l : List Package) (i j : Nat) : List Package :=
  match l[i]?, l[j]? with
  | some a, some b => (l.set i b).set j a
  | _, _ => l

/-- Rust `iter().position(pred)`: index of the first element satisfying the
predicate. -/
def position (p : Package → Bool) : List Package → Option Nat
  | [] => none
  | a :: l => if p a then some 0 else (position p l).map (fun i => i + 1)

/-- Lines 221–233 of `package_list_with_licenses`: apply the cache when
`config.cache` is set, skipping on `Invalid` (logged) or `NotBuildScript`
(warned) and escalating `ReadError` to `CacheReadError`. -/
def cache_stage (cache_enabled : Bool)
    (cacheLoad : Except CacheError (List Package)) (pl0 : List Package) :
    Except BuildError (List Package) :=
  if cache_enabled then
    match populate_with_cache_run cacheLoad pl0 with
    | .ok pl => .ok pl
    | .error CacheError.ReadError => .error .CacheReadError
    | .error _ => .ok pl0
  else .ok pl0

/-- Lines 235–250 of `package_list_with_licenses`: scan the registry src
folders, locate the root package, swap it to index 0, sort indices 1..
(`Vec::sort` is a stable sort by `Ord`; `insertionSort` is stable, hence
computes the same function), and re-derive the root's `license_text` from
the manifest directory. -/
def license_scan_stage
    (src_folders : Except Unit (List (Option (List RootEntry))))
    (manifest_dir : Option (List FsEntry)) (pl1 : List Package) :
    Option (Except BuildError PackageList) :=
  match populate_package_list_licenses src_folders pl1 with
  | .error _ => some (.error .FailedLicenseFetch)
  | .ok pl2 =>
    match position (fun e => e.is_root_pkg) pl2 with
    | none => some (.error .Unexpected)
    | some root_pos =>
      let swapped := listSwap pl2 0 root_pos
      let sorted :=
        match swapped with
        | [] => ([] : List Package)
        | hd :: tl => hd :: List.insertionSort Package.le tl
      match license_text_from_folder manifest_dir with
      | .error _ => some (.error .FailedLicenseFetch)
      | .ok res =>
        some (.ok
          (match sorted with
           | [] => []
           | hd :: tl => { hd with license_text := res } :: tl))

/-- Rust `package_list_with_licenses` from `src/build/mod.rs` lines 217–251:
resolve the package list (fail = `FailedMetadataFetching`), apply the cache
stage, then scan for licenses, pin the root and sort. -/
def package_list_with_licenses (fuel : Nat)
    (metadataFetch : Except MetadataReport Metadata)
    (treeFetch : Except MetadataReport (List String))
    (cache_enabled : Bool)
    (cacheLoad : Except CacheError (List Package))
    (src_folders : Except Unit (List (Option (List RootEntry))))
    (manifest_dir : Option (List FsEntry)) :
    Option (Except BuildError PackageList) :=
  match package_list fuel metadataFetch treeFetch with
  | none => none
  | some (.error _) => some (.error .FailedMetadataFetching)
  | some (.ok pl0) =>
    match cache_stage cache_enabled cacheLoad pl0 with
    | .error e => some (.error e)
    | .ok pl1 => license_scan_stage src_folders manifest_dir pl1

/-! ### Concrete sample inputs used by witnesses and counterexamples -/

/-- A sample package for the C7 witness. -/
def c7Package : Package :=
  ⟨"app", "1.0.0", ["Me"], none, none, none, some "MIT", some "MIT text",
   false, true, "app-1.0.0"⟩

/-- A concrete codec satisfying the boundary contract at `[c7Package]`. -/
def c7Codec : Codec :=
  ⟨fun _ => .ok [7], fun data => 0 :: data,
   fun bytes => some (bytes.drop 1), fun _ => some [c7Package]⟩

/-- A run in which the `Locked` directive fails and the rest succeed. -/
def c6RunOk : CargoDirective → Except ExecReport Output := fun d =>
  match d with
  | CargoDirective.Locked => .error [ExecCargoError.FailedExecution]
  | _ => .ok ⟨"metadata-json"⟩

/-- A run in which every directive fails. -/
def c6RunFail : CargoDirective → Except ExecReport Output := fun _ =>
  .error [ExecCargoError.FailedExecution]

/-- A one-package metadata document whose graph walk succeeds. -/
def c1Metadata : Metadata :=
  ⟨[⟨"app", "0.1.0", "#app@0.1.0", none, none, [], none, none⟩],
   ⟨[⟨"#app@0.1.0", []⟩], some "#app@0.1.0"⟩⟩

/-- The package list `package_list_from_cargo_metadata` produces from
`c1Metadata`. -/
def c1Packages : List Package :=
  [⟨"app", "0.1.0", [], none, none, none, none, none, false, true,
    "app-0.1.0"⟩]

/-- A package awaiting a license scan. -/
def c3Package : Package :=
  ⟨"a", "1.0", [], none, none, none, none, none, false, false, "a-1.0"⟩

/-- The persisted cache entry of the C8 witness scenario. -/
def c8CacheEntry : Package :=
  ⟨"libA", "1.0", [], none, none, none, none, some "MIT text...", false,
   false, "libA-1.0"⟩

/-- The unresolved package of the C8 witness scenario. -/
def c8Fresh : Package :=
  ⟨"libA", "1.0", [], none, none, none, none, none, false, false,
   "libA-1.0"⟩

/-- A cached entry carrying no license text. -/
def c10CacheEntry : Package :=
  ⟨"libB", "2.0", [], none, none, none, none, none, false, false,
   "libB-2.0"⟩

/-- A package whose `license_text` was already populated. -/
def c10Populated : Package :=
  ⟨"libB", "2.0", [], none, none, none, none, some "OLD TEXT", false,
   false, "libB-2.0"⟩

/-- A two-node resolve graph with a normal-kind cycle. -/
def cyclicNodes : List MetadataResolveNode :=
  [⟨"cyc-a", [⟨"cyc-b", [⟨none⟩]⟩]⟩, ⟨"cyc-b", [⟨"cyc-a", [⟨none⟩]⟩]⟩]

/-- An acyclic resolve graph: a root with one normal and one dev-only
dependency edge. -/
def sampleNodes : List MetadataResolveNode :=
  [⟨"root-pkg", [⟨"lib-a", [⟨none⟩]⟩, ⟨"dev-tool", [⟨some "dev"⟩]⟩]⟩,
   ⟨"lib-a", []⟩, ⟨"dev-tool", []⟩]

/-- Metadata in which two listed packages carry the root package's name
(a crate depending on an older published version of itself). -/
def c4Metadata : Metadata :=
  ⟨[⟨"app", "0.2.0", "#app@0.2.0", none, none, [], none, none⟩,
    ⟨"app", "0.1.0", "#app@0.1.0", none, none, [], none, none⟩],
   ⟨[⟨"#app@0.2.0", [⟨"#app@0.1.0", [⟨none⟩]⟩]⟩, ⟨"#app@0.1.0", []⟩],
    some "#app@0.2.0"⟩⟩

/-- The list `package_list_with_licenses` returns on `c4Metadata`. -/
def c4Result : PackageList :=
  [⟨"app", "0.2.0", [], none, none, none, none, none, false, true,
    "app-0.2.0"⟩,
   ⟨"app", "0.1.0", [], none, none, none, none, none, false, true,
    "app-0.1.0"⟩]

/-! ### Helper lemmas -/

theorem mem_hashSetInsert {x a : String} {s : List String} :
    x ∈ hashSetInsert a s ↔ x = a ∨ x ∈ s := by
  unfold hashSetInsert
  split
  · rename_i h
    have ha : a ∈ s := List.elem_iff.mp h
    constructor
    · exact fun hx => Or.inr hx
    · rintro (rfl | hx)
      · exact ha
      · exact hx
  · simp [List.mem_cons]

theorem nodesGet_eq_some {nodes : List MetadataResolveNode} {root : String}
    {node : MetadataResolveNode} (h : nodesGet nodes root = some node) :
    node ∈ nodes ∧ node.id = root := by
  refine ⟨List.mem_reverse.mp (List.mem_of_find?_eq_some h), ?_⟩
  have hp := List.find?_some h
  simpa using hp

theorem not_reach_of_nodesGet_none {nodes : List MetadataResolveNode}
    {root : String} (h : nodesGet nodes root = none) (x : String) :
    ¬ Reach nodes root x := by
  intro hr
  cases hr with
  | refl _ node hn => rw [h] at hn; exact Option.noConfusion hn
  | step _ node dep _ hn _ _ _ => rw [h] at hn; exact Option.noConfusion hn

theorem reach_iff_of_nodesGet {nodes : List MetadataResolveNode}
    {root : String} {node : MetadataResolveNode}
    (hn : nodesGet nodes root = some node) (x : String) :
    Reach nodes root x ↔ x = root ∨
      ∃ dep, dep ∈ node.deps ∧ depIsNormal dep = true ∧ Reach nodes dep.pkg x := by
  constructor
  · intro hr
    cases hr with
    | refl _ node2 h2 => exact Or.inl rfl
    | step _ node2 dep _ h2 hmem hkind hx =>
      rw [hn] at h2
      cases h2
      exact Or.inr ⟨dep, hmem, hkind, hx⟩
  · rintro (rfl | ⟨dep, hmem, hkind, hx⟩)
    · exact Reach.refl _ node hn
    · exact Reach.step _ node dep _ hn hmem hkind hx

theorem walkDepsFold_none (step : String → List String → Option (List String))
    (deps : List MetadataResolveNodeDeps) :
    walkDepsFold step deps none = none := by
  induction deps with
  | nil => rfl
  | cons d ds ih => exact ih

theorem walkDepsFold_cons (step : String → List String → Option (List String))
    (d : MetadataResolveNodeDeps) (ds : List MetadataResolveNodeDeps)
    (u : List String) :
    walkDepsFold step (d :: ds) (some u) =
      walkDepsFold step ds (if depIsNormal d then step d.pkg u else some u) :=
  rfl

theorem walkDepsFold_mono
    {step1 step2 : String → List String → Option (List String)}
    (hstep : ∀ p u r, step1 p u = some r → step2 p u = some r) :
    ∀ (deps : List MetadataResolveNodeDeps) (u r : List String),
      walkDepsFold step1 deps (some u) = some r →
      walkDepsFold step2 deps (some u) = some r := by
  intro deps
  induction deps with
  | nil => intro u r h; exact h
  | cons d ds ih =>
    intro u r h
    rw [walkDepsFold_cons] at h ⊢
    by_cases hd : depIsNormal d = true
    · rw [if_pos hd] at h ⊢
      cases hs1 : step1 d.pkg u with
      | none =>
        rw [hs1, walkDepsFold_none] at h
        exact Option.noConfusion h
      | some u2 =>
        rw [hs1] at h
        rw [hstep _ _ _ hs1]
        exact ih u2 r h
    · rw [if_neg hd] at h ⊢
      exact ih u r h

theorem walk_dependencies_mono (nodes : List MetadataResolveNode) :
    ∀ fuel fuel2, fuel ≤ fuel2 → ∀ root used r,
      walk_dependencies nodes fuel root used = some r →
      walk_dependencies nodes fuel2 root used = some r := by
  intro fuel
  induction fuel with
  | zero =>
    intro fuel2 _ root used r h
    exact absurd h (by simp [walk_dependencies])
  | succ n ih =>
    intro fuel2 hle root used r h
    obtain ⟨m, rfl⟩ : ∃ m, fuel2 = m + 1 := ⟨fuel2 - 1, by omega⟩
    have hnm : n ≤ m := by omega
    rw [walk_dependencies] at h ⊢
    cases hroot : nodesGet nodes root with
    | none => rw [hroot] at h; exact h
    | some package =>
      rw [hroot] at h
      exact walkDepsFold_mono (fun p u r hp => ih m hnm p u r hp) _ _ _ h

theorem walkDepsFold_reach (nodes : List MetadataResolveNode)
    (deps : List MetadataResolveNodeDeps)
    (H : ∀ d, d ∈ deps → depIsNormal d = true → ∀ u, ∃ fuel r,
      walk_dependencies nodes fuel d.pkg u = some r ∧
      ∀ x, (x ∈ r ↔ x ∈ u ∨ Reach nodes d.pkg x)) :
    ∀ u, ∃ fuel r,
      walkDepsFold (fun p v => walk_dependencies nodes fuel p v) deps
        (some u) = some r ∧
      ∀ x, (x ∈ r ↔ x ∈ u ∨
        ∃ d, d ∈ deps ∧ depIsNormal d = true ∧ Reach nodes d.pkg x) := by
  induction deps with
  | nil =>
    intro u
    exact ⟨0, u, rfl, by simp⟩
  | cons d ds ih =>
    intro u
    by_cases hd : depIsNormal d = true
    · obtain ⟨f1, r1, h1, m1⟩ := H d (List.mem_cons_self d ds) hd u
      obtain ⟨f2, r2, h2, m2⟩ :=
        ih (fun d2 hd2 hn2 => H d2 (List.mem_cons_of_mem d hd2) hn2) r1
      refine ⟨max f1 f2, r2, ?_, ?_⟩
      · rw [walkDepsFold_cons, if_pos hd]
        rw [walk_dependencies_mono nodes f1 (max f1 f2) (le_max_left _ _)
          _ _ _ h1]
        exact walkDepsFold_mono
          (fun p v r hp =>
            walk_dependencies_mono nodes f2 (max f1 f2) (le_max_right _ _)
              _ _ _ hp) ds r1 r2 h2
      · intro x
        rw [m2 x, m1 x]
        constructor
        · rintro ((hu | hr) | ⟨d2, hd2, hn2, hr2⟩)
          · exact Or.inl hu
          · exact Or.inr ⟨d, List.mem_cons_self d ds, hd, hr⟩
          · exact Or.inr ⟨d2, List.mem_cons_of_mem d hd2, hn2, hr2⟩
        · rintro (hu | ⟨d2, hd2, hn2, hr2⟩)
          · exact Or.inl (Or.inl hu)
          · rcases List.mem_cons.mp hd2 with rfl | hmem
            · exact Or.inl (Or.inr hr2)
            · exact Or.inr ⟨d2, hmem, hn2, hr2⟩
    · obtain ⟨f2, r2, h2, m2⟩ :=
        ih (fun d2 hd2 hn2 => H d2 (List.mem_cons_of_mem d hd2) hn2) u
      refine ⟨f2, r2, ?_, ?_⟩
      · rw [walkDepsFold_cons, if_neg hd]
        exact h2
      · intro x
        rw [m2 x]
        constructor
        · rintro (hu | ⟨d2, hd2, hn2, hr2⟩)
          · exact Or.inl hu
          · exact Or.inr ⟨d2, List.mem_cons_of_mem d hd2, hn2, hr2⟩
        · rintro (hu | ⟨d2, hd2, hn2, hr2⟩)
          · exact Or.inl hu
          · rcases List.mem_cons.mp hd2 with rfl | hmem
            · exact absurd hn2 (by simp [hd])
            · exact Or.inr ⟨d2, hmem, hn2, hr2⟩

theorem walk_acc_spec (nodes : List MetadataResolveNode) (root : String)
    (hacc : Acc (WalkRel nodes) root) :
    ∀ used, ∃ fuel r, walk_dependencies nodes fuel root used = some r ∧
      ∀ x, (x ∈ r ↔ x ∈ used ∨ Reach nodes root x) := by
  induction hacc with
  | intro y hy ih =>
    intro used
    cases hroot : nodesGet nodes y with
    | none =>
      refine ⟨1, used, ?_, ?_⟩
      · rw [walk_dependencies, hroot]
      · intro x
        simp [not_reach_of_nodesGet_none hroot x]
    | some package =>
      have hid : package.id = y := (nodesGet_eq_some hroot).2
      obtain ⟨fuel, r, hfold, hm⟩ := walkDepsFold_reach nodes package.deps
        (fun d hd hn u => ih d.pkg ⟨package, d, hroot, hd, hn, rfl⟩ u)
        (hashSetInsert package.id used)
      refine ⟨fuel + 1, r, ?_, ?_⟩
      · rw [walk_dependencies, hroot]
        exact hfold
      · intro x
        rw [hm x, mem_hashSetInsert, reach_iff_of_nodesGet hroot x, hid]
        tauto

/-! ### C9: decoding an empty buffer -/

/-- C9: `PackageList::from_encoded` applied to an empty byte buffer returns
the distinct empty-input error `UnpackError::Empty` and never returns an
empty (or any) `PackageList`. -/
theorem from_encoded_empty_buffer (c : Codec) :
    PackageList.from_encoded c [] = .error UnpackError.Empty ∧
    ∀ pl : PackageList, PackageList.from_encoded c [] ≠ .ok pl := by
  refine ⟨rfl, ?_⟩
  intro pl h
  rw [show PackageList.from_encoded c [] = .error UnpackError.Empty from rfl]
    at h
  exact Except.noConfusion h

/-- Witness for C9 at a concrete codec. -/
theorem from_encoded_empty_buffer_witness :
    PackageList.from_encoded c7Codec [] = .error UnpackError.Empty ∧
    ∀ pl : PackageList, PackageList.from_encoded c7Codec [] ≠ .ok pl :=
  from_encoded_empty_buffer c7Codec

/-! ### C7: encode / from_encoded round trip -/

/-- C7: for every `PackageList`, decoding the buffer produced by
`PackageList::encode` yields the original list, given the spec's boundary
contract for the opaque codec at this value (deflate round-trips, bincode
round-trips, and the compressed buffer is non-empty — deflate output always
carries at least a final-block header byte). -/
theorem from_encoded_encode_roundtrip (c : Codec) (pl : PackageList)
    (data : List Nat)
    (hdata : c.bincodeEncode pl = .ok data)
    (hne : c.compress_to_vec data ≠ [])
    (hinfl : c.decompress_to_vec (c.compress_to_vec data) = some data)
    (hdec : c.bincodeDecode data = some pl) :
    PackageList.encode c pl = .ok (c.compress_to_vec data) ∧
    PackageList.from_encoded c (c.compress_to_vec data) = .ok pl := by
  constructor
  · unfold PackageList.encode
    rw [hdata]
  · unfold PackageList.from_encoded
    rw [if_neg (by simpa [List.isEmpty_iff] using hne), hinfl]
    dsimp only
    rw [hdec]

/-- Witness for C7 at a concrete list and codec. -/
theorem from_encoded_encode_roundtrip_witness :
    PackageList.encode c7Codec [c7Package] = .ok [0, 7] ∧
    PackageList.from_encoded c7Codec [0, 7] = .ok [c7Package] :=
  from_encoded_encode_roundtrip c7Codec [c7Package] [7] rfl
    (by decide) rfl rfl

/-! ### C6: directive fallback in exec_cargo -/

/-- C6: for every non-empty directive list, `exec_cargo` returns the output
of the first directive whose invocation succeeds (every earlier directive
having failed), and when every directive fails it returns a single combined
report carrying every directive's error in order, not only the last. -/
theorem exec_cargo_first_success_and_combined :
    (∀ (run : CargoDirective → Except ExecReport Output)
       (pre post : List CargoDirective) (d : CargoDirective) (o : Output),
       (∀ p ∈ pre, ∃ e, run p = .error e) → run d = .ok o →
       exec_cargo run (pre ++ d :: post) = .ok o) ∧
    (∀ (run : CargoDirective → Except ExecReport Output)
       (ds : List CargoDirective), ds ≠ [] →
       (∀ d ∈ ds, ∃ e, run d = .error e) →
       exec_cargo run ds =
         .error ((ds.map (fun d =>
           match run d with
           | .error e => e
           | .ok _ => [])).flatten)) := by
  have hfail : ∀ (run : CargoDirective → Except ExecReport Output)
      (ds : List CargoDirective), (∀ d ∈ ds, ∃ e, run d = .error e) →
      ∀ acc, exec_cargo_loop run ds (some acc) =
        .error (acc ++ (ds.map (fun d =>
          match run d with
          | .error e => e
          | .ok _ => [])).flatten) := by
    intro run ds
    induction ds with
    | nil => intro _ acc; simp [exec_cargo_loop]
    | cons d rest ih =>
      intro hall acc
      obtain ⟨e, he⟩ := hall d (List.mem_cons_self d rest)
      rw [exec_cargo_loop, he]
      dsimp only
      rw [ih (fun d2 hd2 => hall d2 (List.mem_cons_of_mem d hd2)) (acc ++ e)]
      rw [List.map_cons, List.flatten_cons, he, List.append_assoc]
  constructor
  · intro run pre post d o hpre hd
    have hloop : ∀ (pre2 : List CargoDirective)
        (acc : Option ExecReport), (∀ p ∈ pre2, ∃ e, run p = .error e) →
        exec_cargo_loop run (pre2 ++ d :: post) acc = .ok o := by
      intro pre2
      induction pre2 with
      | nil => intro acc _; rw [List.nil_append, exec_cargo_loop, hd]
      | cons p ps ih =>
        intro acc hall
        obtain ⟨e, he⟩ := hall p (List.mem_cons_self p ps)
        rw [List.cons_append, exec_cargo_loop, he]
        exact ih _ (fun p2 hp2 => hall p2 (List.mem_cons_of_mem p hp2))
    exact hloop pre none hpre
  · intro run ds hne hall
    match ds with
    | [] => exact absurd rfl hne
    | d :: rest =>
      obtain ⟨e, he⟩ := hall d (List.mem_cons_self d rest)
      unfold exec_cargo
      rw [exec_cargo_loop, he]
      dsimp only
      rw [hfail run rest (fun d2 hd2 => hall d2 (List.mem_cons_of_mem d hd2)) e]
      rw [List.map_cons, List.flatten_cons, he]

/-- Witness for C6 on the `[Locked, Default]` directive list. -/
theorem exec_cargo_first_success_and_combined_witness :
    exec_cargo c6RunOk [CargoDirective.Locked, CargoDirective.Default] =
      .ok ⟨"metadata-json"⟩ ∧
    exec_cargo c6RunFail [CargoDirective.Locked, CargoDirective.Default] =
      .error [ExecCargoError.FailedExecution,
              ExecCargoError.FailedExecution] := by
  constructor
  · exact exec_cargo_first_success_and_combined.1 c6RunOk
      [CargoDirective.Locked] [] CargoDirective.Default ⟨"metadata-json"⟩
      (by
        intro p hp
        have hp2 : p = CargoDirective.Locked := by
          simpa using hp
        exact ⟨[ExecCargoError.FailedExecution], by rw [hp2]; rfl⟩)
      rfl
  · exact exec_cargo_first_success_and_combined.2 c6RunFail
      [CargoDirective.Locked, CargoDirective.Default] (by simp)
      (fun d _ => ⟨[ExecCargoError.FailedExecution], rfl⟩)

/-! ### C1: metadata succeeds, cargo tree fails -/

/-- Counterexample to C1: with the metadata fetch succeeding and the cargo
tree fetch failing, `package_list` returns the tree error — it does not
bypass the reconciliation filter and succeed. -/
theorem package_list_tree_failure_counterexample :
    package_list 2 (.ok c1Metadata)
      (.error [PkgListFromCargoMetadataError.ExecCargo]) =
      some (.error [PkgListFromCargoMetadataError.ExecCargo]) ∧
    ∀ pl, package_list 2 (.ok c1Metadata)
      (.error [PkgListFromCargoMetadataError.ExecCargo]) ≠
      some (.ok pl) := by
  refine ⟨by decide, ?_⟩
  intro pl h
  rw [show package_list 2 (.ok c1Metadata)
      (.error [PkgListFromCargoMetadataError.ExecCargo]) =
      some (.error [PkgListFromCargoMetadataError.ExecCargo]) by decide] at h
  simp at h

/-- C1 amended: when the cargo-tree fetch fails, `package_list` propagates
that failure through `?` even if the metadata fetch succeeded — the
`extend_one` combination happens only when both fetches fail. -/
theorem package_list_err_when_tree_fails (fuel : Nat) (m : Metadata)
    (pkgs : List Package) (e : MetadataReport)
    (hm : package_list_from_cargo_metadata fuel m = some (.ok pkgs)) :
    package_list fuel (.ok m) (.error e) = some (.error e) := by
  unfold package_list
  dsimp only
  rw [hm]

/-- Witness for the amended C1 at the concrete one-package metadata. -/
theorem package_list_err_when_tree_fails_witness :
    package_list_from_cargo_metadata 2 c1Metadata = some (.ok c1Packages) ∧
    package_list 2 (.ok c1Metadata)
      (.error [PkgListFromCargoMetadataError.Thread]) =
      some (.error [PkgListFromCargoMetadataError.Thread]) :=
  ⟨by decide,
   package_list_err_when_tree_fails 2 c1Metadata c1Packages
     [PkgListFromCargoMetadataError.Thread] (by decide)⟩

/-! ### C3: per-package license-lookup misses -/

/-- C3 (code behavior): a miss with no candidate files is non-fatal and
leaves `license_text = None`, but an unreadable package source folder makes
`populate_package_list_licenses` return an error — the per-package
`license_text_from_folder` failure is joined into the `ReportJoin` and
surfaced by the final `result.result()`, contradicting the claim and the
function's own doc comment («Failure of reading directories of packages are
ignored.»). -/
theorem populate_licenses_unreadable_folder_is_error :
    populate_package_list_licenses (.ok [some [⟨"a-1.0", true, some []⟩]])
      [c3Package] = .ok [c3Package] ∧
    populate_package_list_licenses (.ok [some [⟨"a-1.0", true, none⟩]])
      [c3Package] =
      .error LicenseFetchError.LicenseFetchForPackage :=
  ⟨by decide, by decide⟩

/-! ### C8 and C10: cache population -/

theorem package_hash_map_mem {l : List Package} {k : String} {j : Nat}
    (h : (k, j) ∈ package_hash_map l) :
    ∃ q, ∃ hj : j < l.length,
      l[j] = q ∧ scanEligible q = true ∧ k = q.name_version := by
  unfold package_hash_map at h
  obtain ⟨⟨i, q⟩, hmem, heq⟩ := List.mem_map.mp h
  obtain ⟨henum, hel⟩ := List.mem_filter.mp hmem
  obtain ⟨hlt, hq⟩ := List.mem_enum henum
  have h1 : q.name_version = k := congrArg Prod.fst heq
  have h2 : i = j := congrArg Prod.snd heq
  subst h2
  exact ⟨q, hlt, hq.symm, hel, h1.symm⟩

theorem populate_with_cache_getElem (cache pl : List Package) (i : Nat) :
    (populate_with_cache cache pl)[i]? = (pl[i]?).map (fun pkg =>
      match cacheMapGet cache pkg.name_version with
      | some c =>
        { pkg with restored_from_cache := true, license_text := c.license_text }
      | none => pkg) := by
  unfold populate_with_cache
  rw [List.getElem?_map]

/-- C8: a package with unpopulated `license_text` whose `name_version` is a
cache key whose entry stores license text gets that text and
`restored_from_cache = true` from `populate_with_cache`, and the subsequent
disk scan of `populate_package_list_licenses` never targets it: it fails
the `scanEligible` filter, so no `package_hash_map` entry points at it. -/
theorem cache_hit_populates_and_skips_scan
    (cache pl : List Package) (i : Nat) (p c : Package) (txt : String)
    (hp : pl[i]? = some p)
    (hnone : p.license_text = none)
    (hc : cacheMapGet cache p.name_version = some c)
    (htxt : c.license_text = some txt) :
    (populate_with_cache cache pl)[i]? =
      some { p with restored_from_cache := true, license_text := some txt } ∧
    scanEligible
      { p with restored_from_cache := true, license_text := some txt } =
      false ∧
    ∀ k j, (k, j) ∈ package_hash_map (populate_with_cache cache pl) →
      j ≠ i := by
  have hget : (populate_with_cache cache pl)[i]? =
      some { p with restored_from_cache := true,
                    license_text := c.license_text } := by
    rw [populate_with_cache_getElem, hp]
    dsimp only [Option.map]
    rw [hc]
  rw [htxt] at hget
  refine ⟨hget, by simp [scanEligible], ?_⟩
  intro k j hkj hji
  subst hji
  obtain ⟨q, hlt, hq, hel, hk⟩ := package_hash_map_mem hkj
  have hq2 : (populate_with_cache cache pl)[j]? = some q :=
    List.getElem?_eq_some.mpr ⟨hlt, hq⟩
  rw [hget] at hq2
  cases hq2
  simp [scanEligible] at hel

/-- C10: `populate_with_cache` marks every package whose `name_version` is a
cache key as `restored_from_cache = true` and overwrites its `license_text`
with the cached entry's `license_text` — even when the cached value is
`None` and even when the package's own `license_text` was populated; because
the scan filter excludes restored packages, no `package_hash_map` entry
points at such a package, so it is never scanned and can end with
`license_text = None`. -/
theorem cache_hit_overwrites_unconditionally
    (cache pl : List Package) (i : Nat) (p c : Package)
    (hp : pl[i]? = some p)
    (hc : cacheMapGet cache p.name_version = some c) :
    (populate_with_cache cache pl)[i]? =
      some { p with restored_from_cache := true,
                    license_text := c.license_text } ∧
    scanEligible
      { p with restored_from_cache := true,
               license_text := c.license_text } = false ∧
    ∀ k j, (k, j) ∈ package_hash_map (populate_with_cache cache pl) →
      j ≠ i := by
  have hget : (populate_with_cache cache pl)[i]? =
      some { p with restored_from_cache := true,
                    license_text := c.license_text } := by
    rw [populate_with_cache_getElem, hp]
    dsimp only [Option.map]
    rw [hc]
  refine ⟨hget, by simp [scanEligible], ?_⟩
  intro k j hkj hji
  subst hji
  obtain ⟨q, hlt, hq, hel, hk⟩ := package_hash_map_mem hkj
  have hq2 : (populate_with_cache cache pl)[j]? = some q :=
    List.getElem?_eq_some.mpr ⟨hlt, hq⟩
  rw [hget] at hq2
  cases hq2
  simp [scanEligible] at hel

/-- Witness for C8: the spec's `libA-1.0` cache-hit scenario. -/
theorem cache_hit_populates_and_skips_scan_witness :
    (populate_with_cache [c8CacheEntry] [c8Fresh])[0]? =
      some { c8Fresh with restored_from_cache := true,
                          license_text := some "MIT text..." } ∧
    scanEligible { c8Fresh with restored_from_cache := true,
                                license_text := some "MIT text..." } =
      false ∧
    ∀ k j,
      (k, j) ∈ package_hash_map (populate_with_cache [c8CacheEntry] [c8Fresh]) →
      j ≠ 0 :=
  cache_hit_populates_and_skips_scan [c8CacheEntry] [c8Fresh] 0 c8Fresh
    c8CacheEntry "MIT text..." rfl rfl (by decide) rfl

/-- Witness for C10: a `None` cache entry overwrites an already-populated
`license_text`, and the package is excluded from the scan. -/
theorem cache_hit_overwrites_unconditionally_witness :
    (populate_with_cache [c10CacheEntry] [c10Populated])[0]? =
      some { c10Populated with restored_from_cache := true,
                               license_text := none } ∧
    scanEligible { c10Populated with restored_from_cache := true,
                                     license_text := none } = false ∧
    ∀ k j,
      (k, j) ∈
        package_hash_map (populate_with_cache [c10CacheEntry] [c10Populated]) →
      j ≠ 0 :=
  cache_hit_overwrites_unconditionally [c10CacheEntry] [c10Populated] 0
    c10Populated c10CacheEntry rfl (by decide)

/-! ### C2 and C5: the dependency graph walk -/

theorem cyclic_walk_none : ∀ fuel used,
    walk_dependencies cyclicNodes fuel "cyc-a" used = none ∧
    walk_dependencies cyclicNodes fuel "cyc-b" used = none := by
  intro fuel
  induction fuel with
  | zero => intro used; exact ⟨rfl, rfl⟩
  | succ n ih =>
    intro used
    constructor
    · rw [walk_dependencies, show nodesGet cyclicNodes "cyc-a" =
        some ⟨"cyc-a", [⟨"cyc-b", [⟨none⟩]⟩]⟩ from rfl]
      dsimp only
      rw [walkDepsFold_cons,
        if_pos (show depIsNormal ⟨"cyc-b", [⟨none⟩]⟩ = true from rfl)]
      rw [(ih (hashSetInsert "cyc-a" used)).2]
      exact walkDepsFold_none _ _
    · rw [walk_dependencies, show nodesGet cyclicNodes "cyc-b" =
        some ⟨"cyc-b", [⟨"cyc-a", [⟨none⟩]⟩]⟩ from rfl]
      dsimp only
      rw [walkDepsFold_cons,
        if_pos (show depIsNormal ⟨"cyc-a", [⟨none⟩]⟩ = true from rfl)]
      rw [(ih (hashSetInsert "cyc-b" used)).1]
      exact walkDepsFold_none _ _

/-- Counterexample to C2: on a two-node graph with a normal-kind cycle,
`walk_dependencies` never finishes within any recursion budget — it does
not short-circuit on identities already inserted into the result set, so
the recursion re-enters them forever. -/
theorem walk_dependencies_cycle_diverges :
    ¬ ∃ fuel r, walk_dependencies cyclicNodes fuel "cyc-a" [] = some r := by
  rintro ⟨fuel, r, h⟩
  rw [(cyclic_walk_none fuel []).1] at h
  exact Option.noConfusion h

/-- C2 amended: `walk_dependencies` terminates on every dependency graph
that is acyclic on its normal-kind edges (on a normal-kind cycle reachable
from the root it recurses forever, per the counterexample). -/
theorem walk_dependencies_total_of_acyclic (nodes : List MetadataResolveNode)
    (root : String) (h : AcyclicNormal nodes) :
    ∃ fuel r, walk_dependencies nodes fuel root [] = some r := by
  obtain ⟨fuel, r, hw, _⟩ := walk_acc_spec nodes root (h root) []
  exact ⟨fuel, r, hw⟩

theorem sampleNodes_acyclic : AcyclicNormal sampleNodes := by
  have hlib : Acc (WalkRel sampleNodes) "lib-a" := by
    constructor
    rintro y ⟨node, dep, hl, hd, hk, he⟩
    rw [show nodesGet sampleNodes "lib-a" = some ⟨"lib-a", []⟩ from rfl] at hl
    cases hl
    exact absurd hd (List.not_mem_nil dep)
  have hdev : Acc (WalkRel sampleNodes) "dev-tool" := by
    constructor
    rintro y ⟨node, dep, hl, hd, hk, he⟩
    rw [show nodesGet sampleNodes "dev-tool" = some ⟨"dev-tool", []⟩ from rfl]
      at hl
    cases hl
    exact absurd hd (List.not_mem_nil dep)
  have hroot : Acc (WalkRel sampleNodes) "root-pkg" := by
    constructor
    rintro y ⟨node, dep, hl, hd, hk, he⟩
    rw [show nodesGet sampleNodes "root-pkg" =
      some ⟨"root-pkg", [⟨"lib-a", [⟨none⟩]⟩, ⟨"dev-tool", [⟨some "dev"⟩]⟩]⟩
      from rfl] at hl
    cases hl
    rcases List.mem_cons.mp hd with rfl | hd2
    · exact he ▸ hlib
    · rcases List.mem_cons.mp hd2 with rfl | hd3
      · exact absurd hk (by decide)
      · exact absurd hd3 (List.not_mem_nil _)
  intro x
  by_cases h1 : x = "root-pkg"
  · exact h1 ▸ hroot
  by_cases h2 : x = "lib-a"
  · exact h2 ▸ hlib
  by_cases h3 : x = "dev-tool"
  · exact h3 ▸ hdev
  constructor
  rintro y ⟨node, dep, hl, _, _, _⟩
  obtain ⟨hmem, hid⟩ := nodesGet_eq_some hl
  rcases List.mem_cons.mp hmem with rfl | hmem2
  · exact absurd hid.symm h1
  · rcases List.mem_cons.mp hmem2 with rfl | hmem3
    · exact absurd hid.symm h2
    · rcases List.mem_cons.mp hmem3 with rfl | hmem4
      · exact absurd hid.symm h3
      · exact absurd hmem4 (List.not_mem_nil _)

/-- Witness for the amended C2 on a concrete acyclic graph. -/
theorem walk_dependencies_total_of_acyclic_witness :
    AcyclicNormal sampleNodes ∧
    ∃ fuel r, walk_dependencies sampleNodes fuel "root-pkg" [] = some r :=
  ⟨sampleNodes_acyclic,
   walk_dependencies_total_of_acyclic sampleNodes "root-pkg"
     sampleNodes_acyclic⟩

/-- C5: on every resolve graph acyclic on normal-kind edges,
`walk_dependencies` finishes and returns exactly the set of identities
reachable from the root along normal-kind edges (so nothing reachable only
through dev/build edges), and when the root identity is absent from the
node list the returned set is empty. -/
theorem walk_dependencies_reachable_set (nodes : List MetadataResolveNode)
    (root : String) (h : AcyclicNormal nodes) :
    ∃ fuel r, walk_dependencies nodes fuel root [] = some r ∧
      (∀ x, x ∈ r ↔ Reach nodes root x) ∧
      (nodesGet nodes root = none → r = []) := by
  obtain ⟨fuel, r, hw, hm⟩ := walk_acc_spec nodes root (h root) []
  refine ⟨fuel, r, hw, ?_, ?_⟩
  · intro x
    rw [hm x]
    simp
  · intro hnone
    rw [List.eq_nil_iff_forall_not_mem]
    intro x hx
    rw [hm x] at hx
    rcases hx with hx | hx
    · exact List.not_mem_nil _ hx
    · exact not_reach_of_nodesGet_none hnone x hx

/-- Witness for C5 on the concrete acyclic graph. -/
theorem walk_dependencies_reachable_set_witness :
    AcyclicNormal sampleNodes ∧
    ∃ fuel r, walk_dependencies sampleNodes fuel "root-pkg" [] = some r ∧
      (∀ x, x ∈ r ↔ Reach sampleNodes "root-pkg" x) ∧
      (nodesGet sampleNodes "root-pkg" = none → r = []) :=
  ⟨sampleNodes_acyclic,
   walk_dependencies_reachable_set sampleNodes "root-pkg"
     sampleNodes_acyclic⟩

/-! ### C4: root pinning and sorting in the aggregator -/

theorem Package.cmpLe_iff (a b : Package) : Package.cmpLe a b = true ↔
    a.name < b.name ∨ (a.name = b.name ∧ a.version ≤ b.version) := by
  unfold Package.cmpLe
  by_cases h1 : a.name < b.name
  · simp [h1]
  · by_cases h2 : b.name < a.name
    · rw [if_neg h1, if_pos h2]
      constructor
      · intro hf; exact absurd hf (by simp)
      · rintro (h | ⟨he, _⟩)
        · exact absurd h h1
        · exact absurd h2 (by rw [he]; exact lt_irrefl _)
    · have he : a.name = b.name := le_antisymm (not_lt.mp h2) (not_lt.mp h1)
      rw [if_neg h1, if_neg h2]
      by_cases h3 : a.version < b.version
      · rw [if_pos h3]
        exact iff_of_true rfl (Or.inr ⟨he, h3.le⟩)
      · by_cases h4 : b.version < a.version
        · rw [if_neg h3, if_pos h4]
          constructor
          · intro hf; exact absurd hf (by simp)
          · rintro (h | ⟨_, hv⟩)
            · exact absurd h h1
            · exact absurd h4 (not_lt.mpr hv)
        · have hv : a.version = b.version :=
            le_antisymm (not_lt.mp h4) (not_lt.mp h3)
          rw [if_neg h3, if_neg h4]
          exact iff_of_true rfl (Or.inr ⟨he, hv.le⟩)

instance : IsTotal Package Package.le :=
  ⟨fun a b => by
    unfold Package.le
    rw [Package.cmpLe_iff, Package.cmpLe_iff]
    rcases lt_trichotomy a.name b.name with h | h | h
    · exact Or.inl (Or.inl h)
    · rcases le_total a.version b.version with hv | hv
      · exact Or.inl (Or.inr ⟨h, hv⟩)
      · exact Or.inr (Or.inr ⟨h.symm, hv⟩)
    · exact Or.inr (Or.inl h)⟩

instance : IsTrans Package Package.le :=
  ⟨fun a b c hab hbc => by
    unfold Package.le at hab hbc ⊢
    rw [Package.cmpLe_iff] at hab hbc ⊢
    rcases hab with h1 | ⟨h1, v1⟩
    · rcases hbc with h2 | ⟨h2, v2⟩
      · exact Or.inl (lt_trans h1 h2)
      · exact Or.inl (h2 ▸ h1)
    · rcases hbc with h2 | ⟨h2, v2⟩
      · refine Or.inl ?_
        rw [h1]
        exact h2
      · exact Or.inr ⟨h1.trans h2, v1.trans v2⟩⟩

theorem position_spec (p : Package → Bool) :
    ∀ (l : List Package) (i : Nat), position p l = some i →
      ∃ x, l[i]? = some x ∧ p x = true := by
  intro l
  induction l with
  | nil => intro i h; exact absurd h (by simp [position])
  | cons a t ih =>
    intro i h
    rw [position] at h
    by_cases hp : p a = true
    · rw [if_pos hp] at h
      cases h
      exact ⟨a, by simp, hp⟩
    · rw [if_neg hp] at h
      cases hm : position p t with
      | none => rw [hm] at h; exact absurd h (by simp)
      | some j =>
        rw [hm] at h
        have hij : j + 1 = i := by simpa using h
        subst hij
        obtain ⟨x, hx, hpx⟩ := ih j hm
        exact ⟨x, by simpa using hx, hpx⟩

theorem listSwap_length (l : List Package) (i j : Nat) :
    (listSwap l i j).length = l.length := by
  unfold listSwap
  split
  · simp [List.length_set]
  · rfl

theorem listSwap_zero_getElem (l : List Package) (i : Nat) (b : Package)
    (hi : l[i]? = some b) : (listSwap l 0 i)[0]? = some b := by
  have hlen : i < l.length := (List.getElem?_eq_some.mp hi).1
  have hpos : 0 < l.length := Nat.lt_of_le_of_lt (Nat.zero_le i) hlen
  unfold listSwap
  cases h0 : l[0]? with
  | none =>
    rw [List.getElem?_eq_none_iff] at h0
    omega
  | some a =>
    rw [hi]
    dsimp only
    by_cases hij : i = 0
    · subst hij
      rw [List.set_set]
      have hab : a = b := by
        rw [h0] at hi
        exact Option.some.injEq _ _ ▸ hi
      rw [List.getElem?_set_self (by simpa using hpos), hab]
    · rw [List.getElem?_set_ne hij,
        List.getElem?_set_self (by simpa using hpos)]

/-- C4 amended: every `PackageList` returned successfully by
`package_list_with_licenses` is non-empty, its element at index 0 has
`is_root_pkg = true`, and the elements at indices 1.. are non-decreasing
under the `(name, version)` ordering.  (That exactly one element carries
`is_root_pkg = true` is not guaranteed: every listed package sharing the
root package's name is flagged, see the counterexample.) -/
theorem package_list_with_licenses_root_first_sorted
    (fuel : Nat) (metadataFetch : Except MetadataReport Metadata)
    (treeFetch : Except MetadataReport (List String))
    (cache_enabled : Bool) (cacheLoad : Except CacheError (List Package))
    (src_folders : Except Unit (List (Option (List RootEntry))))
    (manifest_dir : Option (List FsEntry)) (pl : PackageList)
    (h : package_list_with_licenses fuel metadataFetch treeFetch
      cache_enabled cacheLoad src_folders manifest_dir = some (.ok pl)) :
    ∃ hd tl, pl = hd :: tl ∧ hd.is_root_pkg = true ∧
      List.Sorted Package.le tl := by
  have hstage : ∀ (pl1 : List Package),
      license_scan_stage src_folders manifest_dir pl1 = some (.ok pl) →
      ∃ hd tl, pl = hd :: tl ∧ hd.is_root_pkg = true ∧
        List.Sorted Package.le tl := by
    intro pl1 hs
    unfold license_scan_stage at hs
    split at hs
    · exact absurd hs (by simp)
    rename_i pl2 heq2
    split at hs
    · exact absurd hs (by simp)
    rename_i root_pos heqpos
    obtain ⟨q, hq, hqroot⟩ := position_spec _ pl2 root_pos heqpos
    have hswap0 : (listSwap pl2 0 root_pos)[0]? = some q :=
      listSwap_zero_getElem pl2 root_pos q hq
    dsimp only at hs
    split at hs
    · exact absurd hs (by simp)
    rename_i res heqres
    cases hsw : listSwap pl2 0 root_pos with
    | nil =>
      rw [hsw] at hswap0
      exact absurd hswap0 (by simp)
    | cons hd tl =>
      rw [hsw] at hswap0 hs
      have hhd : hd = q := by simpa using hswap0
      have hpl : pl = { hd with license_text := res } ::
          List.insertionSort Package.le tl := by
        have h2 := Option.some.injEq _ _ ▸ hs
        exact (Except.ok.injEq _ _ ▸ h2).symm
      refine ⟨{ hd with license_text := res },
        List.insertionSort Package.le tl, hpl, ?_, ?_⟩
      · show hd.is_root_pkg = true
        rw [hhd]
        exact hqroot
      · exact List.sorted_insertionSort Package.le tl
  unfold package_list_with_licenses at h
  split at h
  · exact absurd h (by simp)
  · exact absurd h (by simp)
  rename_i pl0 heq0
  split at h
  · exact absurd h (by simp)
  rename_i pl1 heq1
  exact hstage pl1 h

/-- Counterexample to C4: a successful `package_list_with_licenses` run
whose result carries `is_root_pkg = true` on two elements — `exactly one`
fails (the element at index 0 is root-flagged and the tail is sorted, per
the amended theorem). -/
theorem package_list_with_licenses_two_roots :
    package_list_with_licenses 3 (.ok c4Metadata)
      (.ok ["app v0.2.0", "app v0.1.0"]) false (.error CacheError.Invalid)
      (.ok []) (some []) = some (.ok c4Result) ∧
    c4Result.countP (fun p => p.is_root_pkg) = 2 :=
  ⟨by decide, by decide⟩

/-- Witness for the amended C4 on a concrete successful run. -/
theorem package_list_with_licenses_root_first_sorted_witness :
    package_list_with_licenses 2 (.ok c1Metadata) (.ok ["app v0.1.0"])
      false (.error CacheError.Invalid) (.ok []) (some []) =
      some (.ok c1Packages) ∧
    ∃ hd tl, c1Packages = hd :: tl ∧ hd.is_root_pkg = true ∧
      List.Sorted Package.le tl :=
  ⟨by decide,
   package_list_with_licenses_root_first_sorted 2 (.ok c1Metadata)
     (.ok ["app v0.1.0"]) false (.error CacheError.Invalid) (.ok [])
     (some []) c1Packages (by decide)⟩

end LicenseFetcher
